import Mathlib

/-!
Shallow embedding of the conversation-graph core of the repository
(`src/main.py`): the `ConversationGraph` data model, branching, message
append, the prefix-merge of `merge_nodes` / `_merge_histories`, the
depth computation of `_compute_depths`, and the `chat` orchestrator.

Python's in-place mutation is modelled by explicit state passing: every
operation that can raise returns the final graph state together with an
`Except` result, so that the graph visible to the caller after an
exception is exactly the first component. Python's `dict` (keyed by
`node_id`, unique keys, insertion order) is modelled as a `List ChatNode`
whose elements carry their key; fresh insertion appends at the end,
key-collision assignment overwrites in place, `del` removes the entry.
-/

namespace TandaGraph

/-- `MessageRole = Literal["user", "assistant"]` from `src/main.py`. -/
inductive Role where
  | user
  | assistant
deriving DecidableEq, Repr

/-- The `Message` dataclass: a role together with text content.
Dataclass equality compares both fields, mirrored by `DecidableEq`. -/
structure Message where
  role : Role
  content : String
deriving DecidableEq, Repr

/-- The `ChatNode` dataclass: id, optional parent id, message history. -/
structure ChatNode where
  node_id : String
  parent_id : Option String
  messages : List Message
deriving DecidableEq, Repr

/-- `ConversationGraph.nodes`: a Python dict from id to node, modelled as
an insertion-ordered association list whose entries carry their key. -/
abbrev Graph := List ChatNode

/-- Dict lookup `self.nodes[node_id]` (as used by `_require_node`). -/
def findNode (g : Graph) (nid : String) : Option ChatNode :=
  g.find? (fun n => decide (n.node_id = nid))

/-- Dict key test `node_id in self.nodes`. -/
def hasNode (g : Graph) (nid : String) : Bool :=
  g.any (fun n => decide (n.node_id = nid))

/-- Dict assignment `self.nodes[node.node_id] = node`: overwrite in place
when the key exists, otherwise append at the end (insertion order). -/
def dictInsert (g : Graph) (node : ChatNode) : Graph :=
  if hasNode g node.node_id then
    g.map (fun n => if n.node_id = node.node_id then node else n)
  else
    g ++ [node]

/-- `ConversationGraph.create_root`: insert a parentless node with empty
history and return its id. -/
def create_root (g : Graph) (node_id : String) : Graph × String :=
  (dictInsert g ⟨node_id, none, []⟩, node_id)

/-- `ConversationGraph.branch_from`: fork `node_id` into a new node.
`carry_messages` controls whether the source history is copied (Python's
`list(original.messages)` snapshot); `additional_messages` are appended
after it. The Python `new_id` default (a random `BRANCH-…` id) is
modelled by passing the chosen id explicitly; `MessageLike` tuples are
already converted to `Message`. Raises `KeyError` if the source node is
absent, leaving the graph unchanged. -/
def branch_from (g : Graph) (node_id new_id : String) (carry_messages : Bool)
    (additional_messages : List Message) : Graph × Except String String :=
  match findNode g node_id with
  | none => (g, Except.error ("Node " ++ node_id ++ " does not exist"))
  | some original =>
    let messages := (if carry_messages then original.messages else []) ++ additional_messages
    (dictInsert g ⟨new_id, some node_id, messages⟩, Except.ok new_id)

/-- `ConversationGraph.delete_node`: `_require_node` then `del`. -/
def delete_node (g : Graph) (node_id : String) : Graph × Except String Unit :=
  if hasNode g node_id then
    (g.filter (fun n => !decide (n.node_id = node_id)), Except.ok ())
  else
    (g, Except.error ("Node " ++ node_id ++ " does not exist"))

/-- The effect of `_require_node(node_id).messages.append(Message(role, content))`
on a single dict entry: only the addressed node gains the turn. -/
def appendTurn (node_id : String) (role : Role) (content : String) (n : ChatNode) : ChatNode :=
  if n.node_id = node_id then { n with messages := n.messages ++ [⟨role, content⟩] } else n

/-- `ConversationGraph.add_message`: `_require_node(node_id).messages.append(...)`. -/
def add_message (g : Graph) (node_id : String) (role : Role) (content : String) :
    Graph × Except String Unit :=
  if hasNode g node_id then
    (g.map (appendTurn node_id role content), Except.ok ())
  else
    (g, Except.error ("Node " ++ node_id ++ " does not exist"))

/-- The longest-common-prefix loop of `_merge_histories`: walk the two
lists in lockstep (Python's `zip`), counting while elements are equal and
stopping at the first mismatch or when either list ends. -/
def prefixLen : List Message → List Message → Nat
  | m1 :: t1, m2 :: t2 => if m1 = m2 then prefixLen t1 t2 + 1 else 0
  | _, _ => 0

/-- `ConversationGraph._merge_histories`: prefix detection with the four
branch checks in Python's order, raising `ValueError` on divergence. -/
def merge_histories (target_msgs source_msgs : List Message) : Except String (List Message) :=
  let prefix_len := prefixLen target_msgs source_msgs
  if prefix_len = target_msgs.length ∧ prefix_len = source_msgs.length then
    Except.ok target_msgs
  else if prefix_len = target_msgs.length then
    Except.ok (target_msgs ++ source_msgs.drop prefix_len)
  else if prefix_len = source_msgs.length then
    Except.ok target_msgs
  else if prefix_len = 0 then
    Except.ok (target_msgs ++ source_msgs)
  else
    Except.error "Cannot merge: histories diverge after shared prefix"

/-- The effect of `target.messages = merged_messages` on a single dict
entry: only the entry keyed by the target id gets the merged history. -/
def setMergedMsgs (target_id : String) (merged : List Message) (n : ChatNode) : ChatNode :=
  if n.node_id = target_id then { n with messages := merged } else n

/-- One step of the reparenting loop `for node in self.nodes.values():
if node.parent_id == source_id: node.parent_id = target_id`. -/
def reparent (target_id source_id : String) (n : ChatNode) : ChatNode :=
  if n.parent_id = some source_id then { n with parent_id := some target_id } else n

/-- `ConversationGraph.merge_nodes`: require both nodes, merge histories
(an exception here leaves the graph untouched, since Python assigns
`target.messages` only after `_merge_histories` returns), assign the
merged history to the target, reparent every node whose parent is the
source to the target, and delete the source unless it is the target. -/
def merge_nodes (g : Graph) (target_id source_id : String) : Graph × Except String String :=
  match findNode g target_id with
  | none => (g, Except.error ("Node " ++ target_id ++ " does not exist"))
  | some target =>
    match findNode g source_id with
    | none => (g, Except.error ("Node " ++ source_id ++ " does not exist"))
    | some source =>
      match merge_histories target.messages source.messages with
      | Except.error e => (g, Except.error e)
      | Except.ok merged =>
        let g1 := g.map (setMergedMsgs target_id merged)
        let g2 := g1.map (reparent target_id source_id)
        let g3 := if source_id = target_id then g2
          else g2.filter (fun n => !decide (n.node_id = source_id))
        (g3, Except.ok target_id)

/-- One `while cursor.parent_id is not None` walk of `_compute_depths`,
made total with a step bound: `some (Except.ok d)` is a normal return of
depth `d`, `some (Except.error e)` a raised `KeyError` (Python's
`self.nodes[cursor.parent_id]` on a dangling parent), and `none` means
the loop ran longer than `fuel` iterations. A walk that yields `none`
for every bound never terminates. -/
def depthWalk (g : Graph) : Nat → ChatNode → Option (Except String Nat)
  | fuel, node =>
    match node.parent_id with
    | none => some (Except.ok 0)
    | some pid =>
      match findNode g pid with
      | none => some (Except.error ("KeyError: " ++ pid))
      | some parent =>
        match fuel with
        | 0 => none
        | fuelLeft + 1 =>
          (depthWalk g fuelLeft parent).map (fun r => r.map (fun d => d + 1))

/-- The `for node_id in self.nodes` loop of `_compute_depths`, collecting
per-node depths in dict order, with the same fuel discipline as
`depthWalk` (the first walk to exhaust fuel or raise wins, as in Python
where the first raising iteration aborts the loop). -/
def computeDepthsAux (g : Graph) (fuel : Nat) : List ChatNode → Option (Except String (List (String × Nat)))
  | [] => some (Except.ok [])
  | n :: rest =>
    match depthWalk g fuel n with
    | none => none
    | some (Except.error e) => some (Except.error e)
    | some (Except.ok d) =>
      match computeDepthsAux g fuel rest with
      | none => none
      | some (Except.error e) => some (Except.error e)
      | some (Except.ok ds) => some (Except.ok ((n.node_id, d) :: ds))

/-- `ConversationGraph._compute_depths` over all nodes of the graph. -/
def computeDepths (g : Graph) (fuel : Nat) : Option (Except String (List (String × Nat))) :=
  computeDepthsAux g fuel g

/-- LangChain message objects produced by `build_context`. -/
inductive LCMessage where
  | human (content : String)
  | ai (content : String)
deriving DecidableEq, Repr

/-- The per-message translation inside `build_context`. -/
def toLC (m : Message) : LCMessage :=
  match m.role with
  | Role.user => LCMessage.human m.content
  | Role.assistant => LCMessage.ai m.content

/-- `build_context`: look the node up and translate its stored history,
in order, into LangChain messages. -/
def build_context (g : Graph) (node_id : String) : Except String (List LCMessage) :=
  match findNode g node_id with
  | none => Except.error ("Node " ++ node_id ++ " does not exist")
  | some n => Except.ok (n.messages.map toLC)

/-- `chat`: append the user turn, invoke the external capability on the
node's context, append the reply as an assistant turn, return the reply.
The capability is an opaque function that may fail; any failure is
propagated unchanged, and the graph state on failure keeps the already
appended user turn (Python mutates in place before the call). -/
def chat (invoke : List LCMessage → Except String String) (g : Graph) (node_id : String)
    (user_input : String) : Graph × Except String String :=
  match add_message g node_id Role.user user_input with
  | (g1, Except.error e) => (g1, Except.error e)
  | (g1, Except.ok _) =>
    match build_context g1 node_id with
    | Except.error e => (g1, Except.error e)
    | Except.ok ctx =>
      match invoke ctx with
      | Except.error e => (g1, Except.error e)
      | Except.ok reply =>
        match add_message g1 node_id Role.assistant reply with
        | (g2, Except.error e) => (g2, Except.error e)
        | (g2, Except.ok _) => (g2, Except.ok reply)

/-! ### Concrete turns, graphs and capabilities used to exercise the
definitions on closed inputs (mirroring the demo conversations of
`run_demo` in miniature). -/

def mU1 : Message := ⟨Role.user, "u1"⟩

def mA1 : Message := ⟨Role.assistant, "a1"⟩

def mU2 : Message := ⟨Role.user, "u2"⟩

/-- Two nodes whose histories diverge after the shared turn `u1`. -/
def gW1 : Graph := [⟨"T", none, [mU1, mA1]⟩, ⟨"S", none, [mU1, mU2]⟩]

/-- Target history `[u1, a1]` is a strict prefix of source `[u1, a1, u2]`. -/
def gW2 : Graph := [⟨"T", none, [mU1, mA1]⟩, ⟨"S", none, [mU1, mA1, mU2]⟩]

/-- Disjoint one-turn histories `[u1]` and `[u2]`. -/
def gW3 : Graph := [⟨"T", none, [mU1]⟩, ⟨"S", none, [mU2]⟩]

/-- A mergeable pair plus a child `C` of the source `S`. -/
def gW4 : Graph := [⟨"T", none, [mU1]⟩, ⟨"S", none, [mU1, mA1]⟩, ⟨"C", some "S", []⟩]

/-- A single node, for the self-merge. -/
def gW5 : Graph := [⟨"A", none, [mU1]⟩]

/-- A single node with one turn, to branch from. -/
def gW6 : Graph := [⟨"N", none, [mU1]⟩]

/-- A node that is its own parent — the shape `merge_nodes` produces when
a node is merged into its own parent. -/
def cycNode : ChatNode := ⟨"A", some "A", []⟩

/-- A graph whose only parent chain is a cycle. -/
def gW7 : Graph := [cycNode]

/-- A single empty root node, for the chat orchestrator. -/
def gW8 : Graph := [⟨"R", none, []⟩]

/-- An external chat capability that always fails. -/
def invokeBoom : List LCMessage → Except String String := fun _ => Except.error "boom"

/-- An external chat capability that always replies `hi`. -/
def invokeReply : List LCMessage → Except String String := fun _ => Except.ok "hi"

/-- The target `T` is a child of the source `S`. -/
def gW9 : Graph := [⟨"S", none, [mU1]⟩, ⟨"T", some "S", [mU1, mA1]⟩]

/-- Disjoint pair for the history-extension property of a merge. -/
def gW10 : Graph := [⟨"T", none, [mU1]⟩, ⟨"S", none, [mU2]⟩]

end TandaGraph

namespace TandaGraph

/-! ### Helper lemmas about graph lookup -/

theorem findNode_mem (g : Graph) (x : String) (n : ChatNode) (h : findNode g x = some n) :
    n ∈ g ∧ n.node_id = x := by
  refine ⟨List.mem_of_find?_eq_some h, ?_⟩
  have := List.find?_some h
  simpa using this

theorem hasNode_of_findNode (g : Graph) (x : String) (n : ChatNode) (h : findNode g x = some n) :
    hasNode g x = true := by
  obtain ⟨hm, hid⟩ := findNode_mem g x n h
  unfold hasNode
  exact List.any_eq_true.mpr ⟨n, hm, by simp [hid]⟩

theorem findNode_map_of_preserve (f : ChatNode → ChatNode)
    (hf : ∀ n, (f n).node_id = n.node_id) (g : Graph) (x : String) :
    findNode (g.map f) x = (findNode g x).map f := by
  induction g with
  | nil => rfl
  | cons a g ih =>
    unfold findNode at *
    rw [List.map_cons]
    by_cases h : a.node_id = x
    · rw [List.find?_cons_of_pos _ (by simp [hf a, h]),
        List.find?_cons_of_pos _ (by simp [h])]
      rfl
    · rw [List.find?_cons_of_neg _ (by simp [hf a, h]),
        List.find?_cons_of_neg _ (by simp [h]), ih]

theorem findNode_filter_self (g : Graph) (sid : String) :
    findNode (g.filter (fun n => !decide (n.node_id = sid))) sid = none := by
  apply List.find?_eq_none.mpr
  intro n hn
  have h := (List.mem_filter.mp hn).2
  simp at h ⊢
  exact h

theorem findNode_filter_ne (g : Graph) (sid x : String) (hx : x ≠ sid) :
    findNode (g.filter (fun n => !decide (n.node_id = sid))) x = findNode g x := by
  induction g with
  | nil => rfl
  | cons a g ih =>
    rw [List.filter_cons]
    by_cases h : a.node_id = sid
    · have hax : ¬ (a.node_id = x) := by
        rw [h]; exact fun hh => hx hh.symm
      rw [if_neg (by simp [h])]
      unfold findNode
      rw [List.find?_cons_of_neg _ (by simp [hax])]
      exact ih
    · rw [if_pos (by simp [h])]
      unfold findNode
      by_cases hax : a.node_id = x
      · rw [List.find?_cons_of_pos _ (by simp [hax]),
          List.find?_cons_of_pos _ (by simp [hax])]
      · rw [List.find?_cons_of_neg _ (by simp [hax]),
          List.find?_cons_of_neg _ (by simp [hax])]
        exact ih

theorem findNode_append_fresh (g : Graph) (x : ChatNode)
    (hfresh : ∀ m ∈ g, m.node_id ≠ x.node_id) :
    findNode (g ++ [x]) x.node_id = some x := by
  induction g with
  | nil => simp [findNode]
  | cons a g ih =>
    have ha : a.node_id ≠ x.node_id := hfresh a (by simp)
    unfold findNode at *
    rw [List.cons_append, List.find?_cons_of_neg _ (by simp [ha])]
    exact ih (fun m hm => hfresh m (by simp [hm]))

theorem eq_of_findNode_of_nodup (g : Graph) (x : String) (A n : ChatNode)
    (hnd : (g.map ChatNode.node_id).Nodup)
    (hA : findNode g x = some A) (hn : n ∈ g) (hid : n.node_id = x) : n = A := by
  induction g with
  | nil => cases hn
  | cons a g ih =>
    rw [List.map_cons, List.nodup_cons] at hnd
    unfold findNode at hA
    by_cases h : a.node_id = x
    · rw [List.find?_cons_of_pos _ (by simp [h])] at hA
      injection hA with hA
      rcases List.mem_cons.mp hn with rfl | hmem
      · exact hA
      · exfalso
        apply hnd.1
        rw [h, ← hid]
        exact List.mem_map_of_mem ChatNode.node_id hmem
    · rw [List.find?_cons_of_neg _ (by simp [h])] at hA
      rcases List.mem_cons.mp hn with rfl | hmem
      · exact absurd hid h
      · exact ih hnd.2 hA hmem

theorem map_id_of_forall_mem (g : Graph) (f : ChatNode → ChatNode)
    (h : ∀ n ∈ g, f n = n) : g.map f = g := by
  induction g with
  | nil => rfl
  | cons a g ih =>
    rw [List.map_cons, h a (by simp), ih (fun n hn => h n (by simp [hn]))]

end TandaGraph

namespace TandaGraph

/-! ### Helper lemmas about the prefix-merge -/

theorem prefixLen_append (t u : List Message) : prefixLen t (t ++ u) = t.length := by
  induction t with
  | nil =>
    cases u with
    | nil => rfl
    | cons b u => rfl
  | cons m t ih =>
    rw [List.cons_append]
    unfold prefixLen
    rw [if_pos rfl, ih, List.length_cons]

theorem prefixLen_refl (t : List Message) : prefixLen t t = t.length := by
  have h := prefixLen_append t []
  rwa [List.append_nil] at h

theorem prefixLen_eq_of_diff (p : Nat) :
    ∀ t s : List Message, t.take p = s.take p → p < t.length → p < s.length →
      t[p]? ≠ s[p]? → prefixLen t s = p := by
  induction p with
  | zero =>
    intro t s _ ht hs hdiff
    cases t with
    | nil => simp at ht
    | cons a t =>
      cases s with
      | nil => simp at hs
      | cons b s =>
        have hab : a ≠ b := by
          intro h
          apply hdiff
          simp [h]
        unfold prefixLen
        rw [if_neg hab]
  | succ p ih =>
    intro t s htake ht hs hdiff
    cases t with
    | nil => simp at ht
    | cons a t =>
      cases s with
      | nil => simp at hs
      | cons b s =>
        rw [List.take_succ_cons, List.take_succ_cons] at htake
        have hab : a = b := (List.cons.injEq _ _ _ _ ▸ htake).1
        have htail : t.take p = s.take p := (List.cons.injEq _ _ _ _ ▸ htake).2
        unfold prefixLen
        rw [if_pos hab]
        have := ih t s htail (by simpa using ht) (by simpa using hs)
          (by simpa using hdiff)
        rw [this]

theorem merge_histories_self (t : List Message) : merge_histories t t = Except.ok t := by
  unfold merge_histories
  rw [prefixLen_refl]
  rw [if_pos ⟨rfl, rfl⟩]

theorem merge_histories_strict (t u : List Message) (hu : u ≠ []) :
    merge_histories t (t ++ u) = Except.ok (t ++ u) := by
  have hpl := prefixLen_append t u
  have hlen : ¬ (t.length = (t ++ u).length) := by
    rw [List.length_append]
    cases u with
    | nil => exact absurd rfl hu
    | cons b u => simp
  unfold merge_histories
  rw [hpl, if_neg (fun hand => hlen hand.2), if_pos rfl, List.drop_left]

theorem merge_histories_disjoint (t s : List Message) (ht : t ≠ []) (hs : s ≠ [])
    (hhead : t.head? ≠ s.head?) :
    merge_histories t s = Except.ok (t ++ s) := by
  have hpl : prefixLen t s = 0 := by
    cases t with
    | nil => exact absurd rfl ht
    | cons a t =>
      cases s with
      | nil => exact absurd rfl hs
      | cons b s =>
        have hab : a ≠ b := by
          intro h
          apply hhead
          simp [List.head?, h]
        unfold prefixLen
        rw [if_neg hab]
  have h1 : ¬ (0 = t.length) := by
    cases t with
    | nil => exact absurd rfl ht
    | cons a t => simp
  have h2 : ¬ (0 = s.length) := by
    cases s with
    | nil => exact absurd rfl hs
    | cons b s => simp
  unfold merge_histories
  rw [hpl, if_neg (fun hand => h1 hand.1), if_neg h1, if_neg h2, if_pos rfl]

theorem merge_histories_diverge (t s : List Message) (p : Nat) (hp0 : 0 < p)
    (hpt : p < t.length) (hps : p < s.length) (htake : t.take p = s.take p)
    (hdiff : t[p]? ≠ s[p]?) :
    merge_histories t s = Except.error "Cannot merge: histories diverge after shared prefix" := by
  have hpl : prefixLen t s = p := prefixLen_eq_of_diff p t s htake hpt hps hdiff
  have h1 : ¬ (p = t.length) := by omega
  have h2 : ¬ (p = s.length) := by omega
  have h3 : ¬ (p = 0) := by omega
  unfold merge_histories
  rw [hpl, if_neg (fun hand => h1 hand.1), if_neg h1, if_neg h2, if_neg h3]

theorem merge_histories_ok_extends (t s m : List Message)
    (h : merge_histories t s = Except.ok m) : ∃ u, t ++ u = m := by
  simp only [merge_histories] at h
  split_ifs at h
  · exact ⟨[], by rw [List.append_nil]; injection h⟩
  · exact ⟨s.drop (prefixLen t s), by injection h⟩
  · exact ⟨[], by rw [List.append_nil]; injection h⟩
  · exact ⟨s, by injection h⟩

end TandaGraph

namespace TandaGraph

/-! ### Helper lemmas about the per-node update functions and merge -/

theorem setMergedMsgs_node_id (tid : String) (merged : List Message) (n : ChatNode) :
    (setMergedMsgs tid merged n).node_id = n.node_id := by
  unfold setMergedMsgs; split <;> rfl

theorem setMergedMsgs_parent_id (tid : String) (merged : List Message) (n : ChatNode) :
    (setMergedMsgs tid merged n).parent_id = n.parent_id := by
  unfold setMergedMsgs; split <;> rfl

theorem setMergedMsgs_self (tid : String) (merged : List Message) (n : ChatNode)
    (h : n.node_id = tid) : (setMergedMsgs tid merged n).messages = merged := by
  unfold setMergedMsgs; rw [if_pos h]

theorem reparent_node_id (tid sid : String) (n : ChatNode) :
    (reparent tid sid n).node_id = n.node_id := by
  unfold reparent; split <;> rfl

theorem reparent_messages (tid sid : String) (n : ChatNode) :
    (reparent tid sid n).messages = n.messages := by
  unfold reparent; split <;> rfl

theorem reparent_parent_id (tid sid : String) (n : ChatNode) :
    (reparent tid sid n).parent_id =
      (if n.parent_id = some sid then some tid else n.parent_id) := by
  unfold reparent
  by_cases h : n.parent_id = some sid
  · rw [if_pos h, if_pos h]
  · rw [if_neg h, if_neg h]

theorem appendTurn_node_id (nid : String) (role : Role) (content : String) (n : ChatNode) :
    (appendTurn nid role content n).node_id = n.node_id := by
  unfold appendTurn; split <;> rfl

theorem merge_nodes_ok_inv (g g' : Graph) (tid sid rid : String) (T : ChatNode)
    (hT : findNode g tid = some T)
    (h : merge_nodes g tid sid = (g', Except.ok rid)) :
    rid = tid ∧ ∃ S merged, findNode g sid = some S ∧
      merge_histories T.messages S.messages = Except.ok merged ∧
      g' = (if sid = tid
        then (g.map (setMergedMsgs tid merged)).map (reparent tid sid)
        else ((g.map (setMergedMsgs tid merged)).map (reparent tid sid)).filter
          (fun n => !decide (n.node_id = sid))) := by
  cases hS : findNode g sid with
  | none =>
    have hc : merge_nodes g tid sid =
        (g, Except.error ("Node " ++ sid ++ " does not exist")) := by
      simp only [merge_nodes, hT, hS]
    rw [hc] at h
    simp at h
  | some S =>
    cases hm : merge_histories T.messages S.messages with
    | error e =>
      have hc : merge_nodes g tid sid = (g, Except.error e) := by
        simp only [merge_nodes, hT, hS, hm]
      rw [hc] at h
      simp at h
    | ok merged =>
      have hc : merge_nodes g tid sid =
          (if sid = tid
            then (g.map (setMergedMsgs tid merged)).map (reparent tid sid)
            else ((g.map (setMergedMsgs tid merged)).map (reparent tid sid)).filter
              (fun n => !decide (n.node_id = sid)), Except.ok tid) := by
        simp only [merge_nodes, hT, hS, hm]
      rw [hc] at h
      simp only [Prod.mk.injEq, Except.ok.injEq] at h
      exact ⟨h.2.symm, S, merged, rfl, hm, h.1.symm⟩

end TandaGraph

namespace TandaGraph

/-- C1: when two distinct nodes' histories agree on a shared prefix of
length `p`, `0 < p`, shorter than both histories, and differ at index
`p`, `merge_nodes` fails with the divergence (`MergeConflictError`)
message and the graph is returned completely unchanged: both nodes still
exist with their old histories and every parent link is as before. -/
theorem merge_diverge_atomic (g : Graph) (tid sid : String) (T S : ChatNode) (p : Nat)
    (hT : findNode g tid = some T) (hS : findNode g sid = some S) (_hne : tid ≠ sid)
    (hp0 : 0 < p) (hpT : p < T.messages.length) (hpS : p < S.messages.length)
    (htake : T.messages.take p = S.messages.take p)
    (hdiff : T.messages[p]? ≠ S.messages[p]?) :
    merge_nodes g tid sid =
      (g, Except.error "Cannot merge: histories diverge after shared prefix") := by
  have hm := merge_histories_diverge T.messages S.messages p hp0 hpT hpS htake hdiff
  simp only [merge_nodes, hT, hS, hm]

/-- C1 witness: histories `[u1, a1]` and `[u1, u2]` diverge at index 1. -/
theorem merge_diverge_atomic_witness :
    merge_nodes gW1 "T" "S" =
      (gW1, Except.error "Cannot merge: histories diverge after shared prefix") :=
  merge_diverge_atomic gW1 "T" "S" ⟨"T", none, [mU1, mA1]⟩ ⟨"S", none, [mU1, mU2]⟩ 1
    (by decide) (by decide) (by decide) (by decide) (by decide) (by decide)
    (by decide) (by decide)

/-- C2: when the target history is a strict prefix of the source history,
the merge succeeds returning the target id, the target's history becomes
its old history followed by the source's suffix past the prefix — i.e.
the source's full old history — and the source node is deleted. -/
theorem merge_prefix_absorbs (g : Graph) (tid sid : String) (T S : ChatNode)
    (u : List Message)
    (hT : findNode g tid = some T) (hS : findNode g sid = some S) (hne : tid ≠ sid)
    (happ : T.messages ++ u = S.messages)
    (hlt : T.messages.length < S.messages.length) :
    (merge_nodes g tid sid).2 = Except.ok tid ∧
    (∃ T', findNode (merge_nodes g tid sid).1 tid = some T' ∧
      T'.messages = S.messages ∧
      T'.messages = T.messages ++ S.messages.drop T.messages.length) ∧
    findNode (merge_nodes g tid sid).1 sid = none := by
  have hu : u ≠ [] := by
    intro h
    subst h
    rw [List.append_nil] at happ
    rw [happ] at hlt
    omega
  have hm : merge_histories T.messages S.messages = Except.ok S.messages := by
    rw [← happ]
    exact merge_histories_strict T.messages u hu
  have hc : merge_nodes g tid sid =
      (((g.map (setMergedMsgs tid S.messages)).map (reparent tid sid)).filter
        (fun n => !decide (n.node_id = sid)), Except.ok tid) := by
    simp only [merge_nodes, hT, hS, hm]
    rw [if_neg (fun h => hne h.symm)]
  rw [hc]
  have hTid : T.node_id = tid := (findNode_mem g tid T hT).2
  refine ⟨rfl, ⟨reparent tid sid (setMergedMsgs tid S.messages T), ?_, ?_, ?_⟩,
    findNode_filter_self _ sid⟩
  · rw [findNode_filter_ne _ sid tid hne,
      findNode_map_of_preserve _ (reparent_node_id tid sid),
      findNode_map_of_preserve _ (setMergedMsgs_node_id tid _), hT]
    rfl
  · rw [reparent_messages, setMergedMsgs_self _ _ _ hTid]
  · rw [reparent_messages, setMergedMsgs_self _ _ _ hTid, ← happ, List.drop_left]

/-- C2 witness: `[u1, a1]` merged with `[u1, a1, u2]` yields
`[u1, a1, u2]` on the surviving target, and the source is gone. -/
theorem merge_prefix_absorbs_witness :
    (merge_nodes gW2 "T" "S").2 = Except.ok "T" ∧
    (∃ T', findNode (merge_nodes gW2 "T" "S").1 "T" = some T' ∧
      T'.messages = [mU1, mA1, mU2] ∧
      T'.messages = [mU1, mA1] ++ [mU1, mA1, mU2].drop 2) ∧
    findNode (merge_nodes gW2 "T" "S").1 "S" = none :=
  merge_prefix_absorbs gW2 "T" "S" ⟨"T", none, [mU1, mA1]⟩ ⟨"S", none, [mU1, mA1, mU2]⟩
    [mU2] (by decide) (by decide) (by decide) (by decide) (by decide)

/-- C3: when both histories are non-empty and differ already at index 0,
the merge succeeds and the target's history becomes its old history
concatenated with the source's entire old history. -/
theorem merge_disjoint_append (g : Graph) (tid sid : String) (T S : ChatNode)
    (hT : findNode g tid = some T) (hS : findNode g sid = some S) (hne : tid ≠ sid)
    (hTne : T.messages ≠ []) (hSne : S.messages ≠ [])
    (hhead : T.messages.head? ≠ S.messages.head?) :
    (merge_nodes g tid sid).2 = Except.ok tid ∧
    ∃ T', findNode (merge_nodes g tid sid).1 tid = some T' ∧
      T'.messages = T.messages ++ S.messages := by
  have hm := merge_histories_disjoint T.messages S.messages hTne hSne hhead
  have hc : merge_nodes g tid sid =
      (((g.map (setMergedMsgs tid (T.messages ++ S.messages))).map (reparent tid sid)).filter
        (fun n => !decide (n.node_id = sid)), Except.ok tid) := by
    simp only [merge_nodes, hT, hS, hm]
    rw [if_neg (fun h => hne h.symm)]
  rw [hc]
  have hTid : T.node_id = tid := (findNode_mem g tid T hT).2
  refine ⟨rfl, reparent tid sid (setMergedMsgs tid (T.messages ++ S.messages) T), ?_, ?_⟩
  · rw [findNode_filter_ne _ sid tid hne,
      findNode_map_of_preserve _ (reparent_node_id tid sid),
      findNode_map_of_preserve _ (setMergedMsgs_node_id tid _), hT]
    rfl
  · rw [reparent_messages, setMergedMsgs_self _ _ _ hTid]

/-- C3 witness: `[u1]` merged with the disjoint `[u2]` yields `[u1, u2]`. -/
theorem merge_disjoint_append_witness :
    (merge_nodes gW3 "T" "S").2 = Except.ok "T" ∧
    ∃ T', findNode (merge_nodes gW3 "T" "S").1 "T" = some T' ∧
      T'.messages = [mU1] ++ [mU2] :=
  merge_disjoint_append gW3 "T" "S" ⟨"T", none, [mU1]⟩ ⟨"S", none, [mU2]⟩
    (by decide) (by decide) (by decide) (by decide) (by decide) (by decide)

/-- C5: a self-merge succeeds, leaves the graph (histories and parent
links of every node) completely unchanged, does not delete the node, and
returns its id. The `Nodup` hypothesis is the dict key-uniqueness
invariant of `ConversationGraph.nodes`. -/
theorem merge_self_noop (g : Graph) (aid : String) (A : ChatNode)
    (hnd : (g.map ChatNode.node_id).Nodup) (hA : findNode g aid = some A) :
    merge_nodes g aid aid = (g, Except.ok aid) := by
  have hm : merge_histories A.messages A.messages = Except.ok A.messages :=
    merge_histories_self A.messages
  have h1 : g.map (setMergedMsgs aid A.messages) = g := by
    apply map_id_of_forall_mem
    intro n hn
    unfold setMergedMsgs
    by_cases h : n.node_id = aid
    · rw [if_pos h]
      have hnA : n = A := eq_of_findNode_of_nodup g aid A n hnd hA hn h
      subst hnA
      rfl
    · rw [if_neg h]
  have h2 : g.map (reparent aid aid) = g := by
    apply map_id_of_forall_mem
    intro n _
    unfold reparent
    by_cases h : n.parent_id = some aid
    · rw [if_pos h, ← h]
    · rw [if_neg h]
  simp only [merge_nodes, hA, hm, if_pos rfl, h1, h2, if_true]

/-- C5 witness: self-merging the single node of `gW5` changes nothing. -/
theorem merge_self_noop_witness :
    merge_nodes gW5 "A" "A" = (gW5, Except.ok "A") :=
  merge_self_noop gW5 "A" ⟨"A", none, [mU1]⟩ (by decide) (by decide)

end TandaGraph

namespace TandaGraph

/-- C4: after a successful merge of distinct nodes, every node that had
the source as its parent is reparented to the target, every other
surviving node keeps its old parent, and no node with the source id
remains in the graph. -/
theorem merge_reparents_children (g g' : Graph) (tid sid rid : String) (T : ChatNode)
    (hT : findNode g tid = some T) (hne : tid ≠ sid)
    (h : merge_nodes g tid sid = (g', Except.ok rid)) :
    (∀ n ∈ g, n.node_id ≠ sid →
      ∃ n' ∈ g', n'.node_id = n.node_id ∧
        n'.parent_id = (if n.parent_id = some sid then some tid else n.parent_id)) ∧
    (∀ n' ∈ g', n'.node_id ≠ sid) := by
  obtain ⟨hrid, S, merged, hS, hm, hg⟩ := merge_nodes_ok_inv g g' tid sid rid T hT h
  rw [if_neg (fun hh => hne hh.symm)] at hg
  subst hg
  constructor
  · intro n hn hnsid
    refine ⟨reparent tid sid (setMergedMsgs tid merged n), ?_, ?_, ?_⟩
    · apply List.mem_filter.mpr
      refine ⟨List.mem_map_of_mem _ (List.mem_map_of_mem _ hn), ?_⟩
      simp [reparent_node_id, setMergedMsgs_node_id, hnsid]
    · rw [reparent_node_id, setMergedMsgs_node_id]
    · rw [reparent_parent_id, setMergedMsgs_parent_id]
  · intro n' hn'
    have hp := (List.mem_filter.mp hn').2
    simpa using hp

/-- C4 witness: in `gW4` the child `C` of the source `S` ends up a child
of the target `T`, `T` keeps its parent, and `S` is gone. -/
theorem merge_reparents_children_witness :
    (∀ n ∈ gW4, n.node_id ≠ "S" →
      ∃ n' ∈ ([⟨"T", none, [mU1, mA1]⟩, ⟨"C", some "T", []⟩] : Graph),
        n'.node_id = n.node_id ∧
        n'.parent_id = (if n.parent_id = some "S" then some "T" else n.parent_id)) ∧
    (∀ n' ∈ ([⟨"T", none, [mU1, mA1]⟩, ⟨"C", some "T", []⟩] : Graph), n'.node_id ≠ "S") :=
  merge_reparents_children gW4 [⟨"T", none, [mU1, mA1]⟩, ⟨"C", some "T", []⟩] "T" "S" "T"
    ⟨"T", none, [mU1]⟩ (by decide) (by decide) rfl

/-- C9: merging a node into its own parent reparents the surviving
target to itself — following the code, the reparenting loop also visits
the target, so the merged node's parent link becomes a self-cycle,
breaking the forest shape. -/
theorem merge_into_parent_self_cycle (g g' : Graph) (tid sid rid : String) (T : ChatNode)
    (hT : findNode g tid = some T) (hne : tid ≠ sid) (hpar : T.parent_id = some sid)
    (h : merge_nodes g tid sid = (g', Except.ok rid)) :
    ∃ T', findNode g' tid = some T' ∧ T'.parent_id = some tid := by
  obtain ⟨hrid, S, merged, hS, hm, hg⟩ := merge_nodes_ok_inv g g' tid sid rid T hT h
  rw [if_neg (fun hh => hne hh.symm)] at hg
  subst hg
  refine ⟨reparent tid sid (setMergedMsgs tid merged T), ?_, ?_⟩
  · rw [findNode_filter_ne _ sid tid hne,
      findNode_map_of_preserve _ (reparent_node_id tid sid),
      findNode_map_of_preserve _ (setMergedMsgs_node_id tid _), hT]
    rfl
  · rw [reparent_parent_id, setMergedMsgs_parent_id, hpar, if_pos rfl]

/-- C9 witness: in `gW9` the child `T` of `S` survives the merge with
parent link `some "T"` — its own id. -/
theorem merge_into_parent_self_cycle_witness :
    ∃ T', findNode ([⟨"T", some "T", [mU1, mA1]⟩] : Graph) "T" = some T' ∧
      T'.parent_id = some "T" :=
  merge_into_parent_self_cycle gW9 [⟨"T", some "T", [mU1, mA1]⟩] "T" "S" "T"
    ⟨"T", some "S", [mU1, mA1]⟩ (by decide) (by decide) (by decide) rfl

/-- C10: on every successful merge, the surviving target's old history is
a prefix of its new history — all four success branches of the
prefix-merge only ever append to the target. -/
theorem merge_keeps_target_history (g g' : Graph) (tid sid rid : String) (T : ChatNode)
    (hT : findNode g tid = some T)
    (h : merge_nodes g tid sid = (g', Except.ok rid)) :
    ∃ T', findNode g' tid = some T' ∧ ∃ u, T.messages ++ u = T'.messages := by
  obtain ⟨hrid, S, merged, hS, hm, hg⟩ := merge_nodes_ok_inv g g' tid sid rid T hT h
  obtain ⟨u, hu⟩ := merge_histories_ok_extends T.messages S.messages merged hm
  have hTid := (findNode_mem g tid T hT).2
  by_cases hst : sid = tid
  · rw [if_pos hst] at hg
    subst hg
    refine ⟨reparent tid sid (setMergedMsgs tid merged T), ?_, u, ?_⟩
    · rw [findNode_map_of_preserve _ (reparent_node_id tid sid),
        findNode_map_of_preserve _ (setMergedMsgs_node_id tid _), hT]
      rfl
    · rw [reparent_messages, setMergedMsgs_self _ _ _ hTid, hu]
  · rw [if_neg hst] at hg
    subst hg
    have hne : tid ≠ sid := fun hh => hst hh.symm
    refine ⟨reparent tid sid (setMergedMsgs tid merged T), ?_, u, ?_⟩
    · rw [findNode_filter_ne _ sid tid hne,
        findNode_map_of_preserve _ (reparent_node_id tid sid),
        findNode_map_of_preserve _ (setMergedMsgs_node_id tid _), hT]
      rfl
    · rw [reparent_messages, setMergedMsgs_self _ _ _ hTid, hu]

/-- C10 witness: the disjoint merge in `gW10` extends the target's
history `[u1]` to `[u1, u2]`. -/
theorem merge_keeps_target_history_witness :
    ∃ T', findNode ([⟨"T", none, [mU1, mU2]⟩] : Graph) "T" = some T' ∧
      ∃ u, [mU1] ++ u = T'.messages :=
  merge_keeps_target_history gW10 [⟨"T", none, [mU1, mU2]⟩] "T" "S" "T"
    ⟨"T", none, [mU1]⟩ (by decide) rfl

end TandaGraph

namespace TandaGraph

/-! ### Branching, chat, and depth lemmas -/

theorem dictInsert_fresh (g : Graph) (node : ChatNode)
    (hfresh : ∀ m ∈ g, m.node_id ≠ node.node_id) :
    dictInsert g node = g ++ [node] := by
  unfold dictInsert
  have hnot : ¬ (hasNode g node.node_id = true) := by
    intro hcontra
    obtain ⟨m, hm, hp⟩ := List.any_eq_true.mp hcontra
    exact hfresh m hm (by simpa using hp)
  rw [if_neg hnot]

theorem add_message_found (g : Graph) (nid : String) (role : Role) (content : String)
    (h : hasNode g nid = true) :
    add_message g nid role content = (g.map (appendTurn nid role content), Except.ok ()) := by
  unfold add_message
  rw [if_pos h]

theorem build_context_found (g : Graph) (nid : String) (n : ChatNode)
    (h : findNode g nid = some n) :
    build_context g nid = Except.ok (n.messages.map toLC) := by
  unfold build_context
  rw [h]

/-- C6: `branch_from` with `carry_messages = true` gives the new node a
snapshot of the source's history at creation (followed by the
`additional_messages`); a later `add_message` on the source leaves the
branch's history untouched; with `carry_messages = false` the branch
starts from just the additional messages. -/
theorem branch_snapshot (g : Graph) (nid new_id : String) (n : ChatNode)
    (add : List Message) (role : Role) (content : String)
    (h : findNode g nid = some n)
    (hfresh : ∀ m ∈ g, m.node_id ≠ new_id) :
    findNode (branch_from g nid new_id true add).1 new_id =
      some ⟨new_id, some nid, n.messages ++ add⟩ ∧
    findNode (add_message (branch_from g nid new_id true add).1 nid role content).1 new_id =
      some ⟨new_id, some nid, n.messages ++ add⟩ ∧
    findNode (branch_from g nid new_id false add).1 new_id =
      some ⟨new_id, some nid, add⟩ := by
  obtain ⟨hmem, hid⟩ := findNode_mem g nid n h
  have hnidne : nid ≠ new_id := by
    have hx := hfresh n hmem
    rw [hid] at hx
    exact hx
  have hb1 : (branch_from g nid new_id true add).1 =
      g ++ [⟨new_id, some nid, n.messages ++ add⟩] := by
    simp only [branch_from, h]
    exact dictInsert_fresh g ⟨new_id, some nid, n.messages ++ add⟩ hfresh
  have hb0 : (branch_from g nid new_id false add).1 =
      g ++ [⟨new_id, some nid, add⟩] := by
    simp only [branch_from, h]
    exact dictInsert_fresh g ⟨new_id, some nid, add⟩ hfresh
  have hfind1 : findNode (g ++ [⟨new_id, some nid, n.messages ++ add⟩]) new_id =
      some ⟨new_id, some nid, n.messages ++ add⟩ :=
    findNode_append_fresh g ⟨new_id, some nid, n.messages ++ add⟩ hfresh
  have hhas1 : hasNode (g ++ [⟨new_id, some nid, n.messages ++ add⟩]) nid = true := by
    apply List.any_eq_true.mpr
    exact ⟨n, by simp [hmem], by simp [hid]⟩
  refine ⟨by rw [hb1]; exact hfind1, ?_, ?_⟩
  · rw [hb1, add_message_found _ nid role content hhas1]
    rw [findNode_map_of_preserve _ (appendTurn_node_id nid role content), hfind1]
    show some (appendTurn nid role content ⟨new_id, some nid, n.messages ++ add⟩) = _
    unfold appendTurn
    rw [if_neg]
    intro hcontra
    exact hnidne (hcontra.symm)
  · rw [hb0]
    exact findNode_append_fresh g ⟨new_id, some nid, add⟩ hfresh

/-- C6 witness: branching `N` (history `[u1]`) into `B` with seed `[u2]`,
then appending to `N`, leaves `B`'s history at `[u1, u2]`; without
carrying, `B` starts at `[u2]`. -/
theorem branch_snapshot_witness :
    findNode (branch_from gW6 "N" "B" true [mU2]).1 "B" =
      some ⟨"B", some "N", [mU1] ++ [mU2]⟩ ∧
    findNode (add_message (branch_from gW6 "N" "B" true [mU2]).1 "N" Role.user "x").1 "B" =
      some ⟨"B", some "N", [mU1] ++ [mU2]⟩ ∧
    findNode (branch_from gW6 "N" "B" false [mU2]).1 "B" =
      some ⟨"B", some "N", [mU2]⟩ :=
  branch_snapshot gW6 "N" "B" ⟨"N", none, [mU1]⟩ [mU2] Role.user "x"
    (by decide) (by decide)

/-- C8: `chat` appends the user turn first; if the external capability
fails, the failure value is propagated unchanged and the node is left
with exactly the user turn appended (a trailing unanswered user turn);
if it succeeds, the reply is returned and the node gains the user turn
followed by one assistant turn carrying the reply. -/
theorem chat_spec (g : Graph) (nid : String) (n : ChatNode) (utext : String)
    (invoke : List LCMessage → Except String String)
    (h : findNode g nid = some n) :
    (∀ e, invoke (List.map toLC (n.messages ++ [Message.mk Role.user utext])) = Except.error e →
      (chat invoke g nid utext).2 = Except.error e ∧
      findNode (chat invoke g nid utext).1 nid =
        some { n with messages := n.messages ++ [⟨Role.user, utext⟩] }) ∧
    (∀ reply, invoke (List.map toLC (n.messages ++ [Message.mk Role.user utext])) = Except.ok reply →
      (chat invoke g nid utext).2 = Except.ok reply ∧
      findNode (chat invoke g nid utext).1 nid =
        some { n with messages :=
          n.messages ++ [⟨Role.user, utext⟩, ⟨Role.assistant, reply⟩] }) := by
  have hhas : hasNode g nid = true := hasNode_of_findNode g nid n h
  have hid : n.node_id = nid := (findNode_mem g nid n h).2
  have hfind1 : findNode (g.map (appendTurn nid Role.user utext)) nid =
      some { n with messages := n.messages ++ [⟨Role.user, utext⟩] } := by
    rw [findNode_map_of_preserve _ (appendTurn_node_id nid Role.user utext), h]
    show some (appendTurn nid Role.user utext n) = _
    unfold appendTurn
    rw [if_pos hid]
  have hhas1 : hasNode (g.map (appendTurn nid Role.user utext)) nid = true :=
    hasNode_of_findNode _ nid _ hfind1
  constructor
  · intro e he
    have hc : chat invoke g nid utext =
        (g.map (appendTurn nid Role.user utext), Except.error e) := by
      simp only [chat, add_message_found g nid Role.user utext hhas,
        build_context_found _ nid _ hfind1, he]
    rw [hc]
    exact ⟨rfl, hfind1⟩
  · intro reply hr
    have hc : chat invoke g nid utext =
        ((g.map (appendTurn nid Role.user utext)).map (appendTurn nid Role.assistant reply),
          Except.ok reply) := by
      simp only [chat, add_message_found g nid Role.user utext hhas,
        build_context_found _ nid _ hfind1, hr,
        add_message_found _ nid Role.assistant reply hhas1]
    rw [hc]
    refine ⟨rfl, ?_⟩
    rw [findNode_map_of_preserve _ (appendTurn_node_id nid Role.assistant reply), hfind1]
    show some (appendTurn nid Role.assistant reply
      { n with messages := n.messages ++ [⟨Role.user, utext⟩] }) = _
    unfold appendTurn
    rw [if_pos hid, List.append_assoc]
    rfl

/-- C8 witness: on the root of `gW8`, a failing capability leaves the
trailing user turn and propagates `boom`; a succeeding one returns `hi`
and appends both turns. -/
theorem chat_spec_witness :
    ((chat invokeBoom gW8 "R" "q").2 = Except.error "boom" ∧
      findNode (chat invokeBoom gW8 "R" "q").1 "R" =
        some ⟨"R", none, [⟨Role.user, "q"⟩]⟩) ∧
    ((chat invokeReply gW8 "R" "q").2 = Except.ok "hi" ∧
      findNode (chat invokeReply gW8 "R" "q").1 "R" =
        some ⟨"R", none, [⟨Role.user, "q"⟩, ⟨Role.assistant, "hi"⟩]⟩) :=
  ⟨(chat_spec gW8 "R" ⟨"R", none, []⟩ "q" invokeBoom (by decide)).1 "boom" rfl,
    (chat_spec gW8 "R" ⟨"R", none, []⟩ "q" invokeReply (by decide)).2 "hi" rfl⟩

/-- The walk of the cyclic node never finishes: for every step bound it
neither returns a depth nor raises, i.e. the while loop runs forever. -/
theorem depthWalk_cyc (fuel : Nat) : depthWalk gW7 fuel cycNode = none := by
  induction fuel with
  | zero => rfl
  | succ f ih =>
    have hstep : depthWalk gW7 (f + 1) cycNode =
        (depthWalk gW7 f cycNode).map (fun r => r.map (fun d => d + 1)) := rfl
    rw [hstep, ih]
    rfl

/-- C7: on a graph whose only parent chain is a cycle (a node that is its
own parent — reachable in the code by merging a node into its own
parent, cf. C9), the depth computation of `_compute_depths` never
terminates: for every step bound it neither returns a result nor raises
any error, where the spec requires it to fail with a defensive
invariant-violation error instead of looping forever. -/
theorem computeDepths_cycle_diverges (fuel : Nat) : computeDepths gW7 fuel = none := by
  have h : depthWalk [cycNode] fuel cycNode = none := depthWalk_cyc fuel
  simp only [computeDepths, gW7, computeDepthsAux, h]

/-- C7 witness: with a bound of 5 steps the computation has not finished. -/
theorem computeDepths_cycle_diverges_witness : computeDepths gW7 5 = none :=
  computeDepths_cycle_diverges 5

end TandaGraph
